import Mathlib

/-!
Shallow embedding of the golang-todo HTTP to-do list server (src/main.go).

The Go program keeps a global `map[string][]Task` guarded by a mutex and
serves create-list / get-tasks / add-task / toggle-task / delete-task
operations from `handleListOperations`.  Each handler body runs entirely
under the single global lock, so each operation is modelled as an atomic
function from store state to (HTTP result, store state).

The Go map is modelled as an association list with unique-key update
semantics (`setKey` overwrites in place or inserts at the end); a lookup
of an absent key yields `none`, matching Go's comma-ok idiom, and the
`nil` slice a Go map read returns for an absent key is modelled by
`Option.getD []` exactly where the Go code reads without the comma-ok
check.
-/

namespace GoTodo

/-- `Task` from src/main.go: a description plus completion status
(`true` = completed). -/
structure Task where
  description : String
  status : Bool
deriving Repr, DecidableEq

/-- The global `taskLists` map, `map[listName] -> []Task`, as an
association list. -/
abbrev Store := List (String × List Task)

/-- Go map read with comma-ok: `tasks, exists := taskLists[name]`. -/
def lookupList : Store → String → Option (List Task)
  | [], _ => none
  | (k, v) :: rest, n => if k = n then some v else lookupList rest n

/-- Go map write `taskLists[name] = ts`: overwrite the existing entry or
insert a new one. -/
def setList : Store → String → List Task → Store
  | [], n, ts => [(n, ts)]
  | (k, v) :: rest, n, ts =>
      if k = n then (n, ts) :: rest else (k, v) :: setList rest n ts

/-- Outcome of one HTTP handler branch. -/
inductive HResult where
  /-- 200: `writeJSON` of a success payload. -/
  | ok : HResult
  /-- 409 Conflict: "Task list already exists". -/
  | conflict : HResult
  /-- 404: "Task list not found". -/
  | notFound : HResult
  /-- 400: "Invalid task index" (`strconv.Atoi` failure or `index < 1`). -/
  | badIndex : HResult
  /-- 400: "Task index out of range". -/
  | outOfRange : HResult
deriving Repr, DecidableEq

/-- HTTP status code each outcome is written with in src/main.go. -/
def statusCode : HResult → Nat
  | .ok => 200
  | .conflict => 409
  | .notFound => 404
  | .badIndex => 400
  | .outOfRange => 400

/-- POST /lists/{name} (src/main.go lines 66-74): reject when the name
exists, else install an empty slice. -/
def createList (s : Store) (name : String) : HResult × Store :=
  match lookupList s name with
  | some _ => (.conflict, s)
  | none => (.ok, setList s name [])

/-- GET /lists/{name}/tasks (src/main.go lines 77-85): 404 when absent,
else return the slice. -/
def getTasks (s : Store) (name : String) : HResult × Option (List Task) :=
  match lookupList s name with
  | none => (.notFound, none)
  | some ts => (.ok, some ts)

/-- POST /lists/{name}/tasks (src/main.go lines 88-98) after a successful
body decode: `taskLists[listName] = append(taskLists[listName], t)`.
The map read is without comma-ok, so an absent key reads as the `nil`
slice and the append implicitly creates the list. -/
def addTask (s : Store) (name : String) (t : Task) : HResult × Store :=
  (.ok, setList s name ((lookupList s name).getD [] ++ [t]))

/-- Status flip of `tasks[index-1].Status = !tasks[index-1].Status` at a
0-based position. -/
def toggleAt : List Task → Nat → List Task
  | [], _ => []
  | t :: rest, 0 => { t with status := !t.status } :: rest
  | t :: rest, n + 1 => t :: toggleAt rest n

/-- PUT /lists/{name}/tasks/{index} (src/main.go lines 101-121).  The
index is the `strconv.Atoi` result (a Go int, hence `Int`); `index < 1`
is rejected before the map is consulted, then absence gives 404, then
`index > len(tasks)` gives 400, else the status at the 1-based position
is flipped in place. -/
def toggleTask (s : Store) (name : String) (index : Int) : HResult × Store :=
  if index < 1 then (.badIndex, s)
  else
    match lookupList s name with
    | none => (.notFound, s)
    | some ts =>
        if index > (ts.length : Int) then (.outOfRange, s)
        else (.ok, setList s name (toggleAt ts (index.toNat - 1)))

/-- DELETE /lists/{name}/tasks/{index} (src/main.go lines 124-143): same
validation as toggle, then
`taskLists[listName] = append(tasks[:index-1], tasks[index:]...)`. -/
def deleteTask (s : Store) (name : String) (index : Int) : HResult × Store :=
  if index < 1 then (.badIndex, s)
  else
    match lookupList s name with
    | none => (.notFound, s)
    | some ts =>
        if index > (ts.length : Int) then (.outOfRange, s)
        else
          (.ok, setList s name (ts.take (index.toNat - 1) ++ ts.drop index.toNat))

/-! ### Helper lemmas about the map model -/

theorem lookupList_setList_self (s : Store) (n : String) (ts : List Task) :
    lookupList (setList s n ts) n = some ts := by
  induction s with
  | nil => simp [setList, lookupList]
  | cons kv rest ih =>
      obtain ⟨k, v⟩ := kv
      by_cases h : k = n <;> simp [setList, lookupList, h, ih]

theorem lookupList_setList_ne (s : Store) (n m : String) (ts : List Task)
    (h : m ≠ n) : lookupList (setList s n ts) m = lookupList s m := by
  induction s with
  | nil => simp [setList, lookupList, Ne.symm h]
  | cons kv rest ih =>
      obtain ⟨k, v⟩ := kv
      by_cases hk : k = n
      · subst hk
        simp [setList, lookupList, Ne.symm h]
      · simp [setList, lookupList, hk, ih]

theorem isSome_lookupList_setList (s : Store) (n m : String) (ts : List Task)
    (h : (lookupList s m).isSome) :
    (lookupList (setList s n ts) m).isSome := by
  by_cases hm : m = n
  · subst hm; simp [lookupList_setList_self]
  · rwa [lookupList_setList_ne s n m ts hm]

/-! ### Helper lemmas about the in-place status flip -/

theorem toggleAt_length (ts : List Task) (k : Nat) :
    (toggleAt ts k).length = ts.length := by
  induction ts generalizing k with
  | nil => rfl
  | cons t rest ih =>
      cases k with
      | zero => rfl
      | succ n => simp [toggleAt, ih]

theorem toggleAt_get?_eq (ts : List Task) (k : Nat) :
    (toggleAt ts k).get? k
      = (ts.get? k).map (fun t => { t with status := !t.status }) := by
  induction ts generalizing k with
  | nil => rfl
  | cons t rest ih =>
      cases k with
      | zero => rfl
      | succ n => simpa [toggleAt] using ih n

theorem toggleAt_get?_ne (ts : List Task) (k j : Nat) (h : j ≠ k) :
    (toggleAt ts k).get? j = ts.get? j := by
  induction ts generalizing k j with
  | nil => rfl
  | cons t rest ih =>
      cases k with
      | zero =>
          cases j with
          | zero => exact absurd rfl h
          | succ m => rfl
      | succ n =>
          cases j with
          | zero => rfl
          | succ m => simpa [toggleAt] using ih n m (by omega)

theorem toggleAt_toggleAt (ts : List Task) (k : Nat) :
    toggleAt (toggleAt ts k) k = ts := by
  induction ts generalizing k with
  | nil => rfl
  | cons t rest ih =>
      cases k with
      | zero => simp [toggleAt]
      | succ n => simp [toggleAt, ih]

/-! ### Helper lemmas about slice removal `tasks[:k] + tasks[k+1:]` -/

/-- `removeAt ts k` removes the element at 0-based position `k`; it is what
`append(tasks[:k], tasks[k+1:]...)` computes. -/
def removeAt : List Task → Nat → List Task
  | [], _ => []
  | _ :: rest, 0 => rest
  | t :: rest, n + 1 => t :: removeAt rest n

theorem take_append_drop_succ (ts : List Task) (k : Nat) :
    ts.take k ++ ts.drop (k + 1) = removeAt ts k := by
  induction ts generalizing k with
  | nil => simp [removeAt]
  | cons t rest ih =>
      cases k with
      | zero => simp [removeAt]
      | succ n => simp [removeAt, List.take_succ_cons, List.drop_succ_cons, ih]

theorem removeAt_length (ts : List Task) (k : Nat) (h : k < ts.length) :
    (removeAt ts k).length = ts.length - 1 := by
  induction ts generalizing k with
  | nil => simp at h
  | cons t rest ih =>
      cases k with
      | zero => simp [removeAt]
      | succ n =>
          have hn : n < rest.length := by simpa using h
          have := ih n hn
          simp only [removeAt, List.length_cons, this]
          omega

theorem removeAt_get?_lt (ts : List Task) (k j : Nat) (h : j < k) :
    (removeAt ts k).get? j = ts.get? j := by
  induction ts generalizing k j with
  | nil => rfl
  | cons t rest ih =>
      cases k with
      | zero => omega
      | succ n =>
          cases j with
          | zero => rfl
          | succ m => simpa [removeAt] using ih n m (by omega)

theorem removeAt_get?_ge (ts : List Task) (k j : Nat) (h : k ≤ j) :
    (removeAt ts k).get? j = ts.get? (j + 1) := by
  induction ts generalizing k j with
  | nil => rfl
  | cons t rest ih =>
      cases k with
      | zero => rfl
      | succ n =>
          cases j with
          | zero => omega
          | succ m => simpa [removeAt] using ih n m (by omega)

/-- On a present list and an in-range index the toggle handler answers
`ok` and installs the flipped slice. -/
theorem toggleTask_ok (s : Store) (name : String) (ts : List Task)
    (index : Int) (h : lookupList s name = some ts)
    (h1 : 1 ≤ index) (h2 : index ≤ (ts.length : Int)) :
    toggleTask s name index
      = (HResult.ok, setList s name (toggleAt ts (index.toNat - 1))) := by
  have hlt : ¬ index < 1 := by omega
  have hgt : ¬ (ts.length : Int) < index := by omega
  simp [toggleTask, hlt, h, hgt]

/-- On a present list and an in-range index the delete handler answers
`ok` and installs the slice with the gap closed. -/
theorem deleteTask_ok (s : Store) (name : String) (ts : List Task)
    (index : Int) (h : lookupList s name = some ts)
    (h1 : 1 ≤ index) (h2 : index ≤ (ts.length : Int)) :
    deleteTask s name index
      = (HResult.ok,
          setList s name (ts.take (index.toNat - 1) ++ ts.drop index.toNat)) := by
  have hlt : ¬ index < 1 := by omega
  have hgt : ¬ (ts.length : Int) < index := by omega
  simp [deleteTask, hlt, h, hgt]

/-! ### Claim C1 -/

/-- C1 counterexample: the claim says adding a task to an absent list
fails with NotFound (404) and leaves the store unchanged.  On the empty
store, where `"work"` is absent, the add-task handler instead answers
`ok` (200), not `notFound`, and mutates the store: the Go code appends
through a comma-ok-free map read, so the absent key reads as the `nil`
slice and the list is created implicitly. -/
theorem addTask_missing_list_counterexample :
    lookupList ([] : Store) "work" = none ∧
    (addTask [] "work" ⟨"buy milk", false⟩).1 = HResult.ok ∧
    (addTask [] "work" ⟨"buy milk", false⟩).1 ≠ HResult.notFound ∧
    (addTask [] "work" ⟨"buy milk", false⟩).2
      = [("work", [⟨"buy milk", false⟩])] ∧
    (addTask [] "work" ⟨"buy milk", false⟩).2 ≠ ([] : Store) := by
  decide

/-- C1 (amended): the add-task operation never fails with NotFound.  For
any store it answers `ok` and appends the task at the end of the named
list, implicitly creating the list (as the one-element list `[t]`) when
the name was absent. -/
theorem addTask_always_ok_and_appends (s : Store) (name : String) (t : Task) :
    (addTask s name t).1 = HResult.ok ∧
    lookupList (addTask s name t).2 name
      = some ((lookupList s name).getD [] ++ [t]) := by
  exact ⟨rfl, lookupList_setList_self s name _⟩

/-! ### Claim C2 -/

/-- C2: on a list of N tasks, toggle and delete succeed exactly for
indices 1..N; an index < 1 is rejected as InvalidIndex before the store
is consulted (the same answer on every store, the given one included);
an in-format index beyond N is rejected as IndexOutOfRange; and every
failure leaves the store unchanged. -/
theorem toggle_delete_index_validation (s : Store) (name : String)
    (ts : List Task) (index : Int) (h : lookupList s name = some ts) :
    ((toggleTask s name index).1 = HResult.ok ↔
        1 ≤ index ∧ index ≤ (ts.length : Int)) ∧
    ((deleteTask s name index).1 = HResult.ok ↔
        1 ≤ index ∧ index ≤ (ts.length : Int)) ∧
    (index < 1 → ∀ s' : Store,
        toggleTask s' name index = (HResult.badIndex, s') ∧
        deleteTask s' name index = (HResult.badIndex, s')) ∧
    (1 ≤ index → (ts.length : Int) < index →
        toggleTask s name index = (HResult.outOfRange, s) ∧
        deleteTask s name index = (HResult.outOfRange, s)) ∧
    ((toggleTask s name index).1 ≠ HResult.ok →
        (toggleTask s name index).2 = s) ∧
    ((deleteTask s name index).1 ≠ HResult.ok →
        (deleteTask s name index).2 = s) := by
  have hb : ∀ s' : Store, index < 1 →
      toggleTask s' name index = (HResult.badIndex, s') ∧
      deleteTask s' name index = (HResult.badIndex, s') := by
    intro s' hi
    exact ⟨by simp [toggleTask, hi], by simp [deleteTask, hi]⟩
  have ho : 1 ≤ index → (ts.length : Int) < index →
      toggleTask s name index = (HResult.outOfRange, s) ∧
      deleteTask s name index = (HResult.outOfRange, s) := by
    intro hi hgt
    have hlt : ¬ index < 1 := by omega
    exact ⟨by simp [toggleTask, hlt, h, hgt], by simp [deleteTask, hlt, h, hgt]⟩
  have hiff1 : (toggleTask s name index).1 = HResult.ok ↔
      1 ≤ index ∧ index ≤ (ts.length : Int) := by
    constructor
    · intro hok
      by_cases hi : index < 1
      · rw [(hb s hi).1] at hok; simp at hok
      · by_cases hg : (ts.length : Int) < index
        · rw [(ho (by omega) hg).1] at hok; simp at hok
        · exact ⟨by omega, by omega⟩
    · rintro ⟨hi, hle⟩
      rw [toggleTask_ok s name ts index h hi hle]
  have hiff2 : (deleteTask s name index).1 = HResult.ok ↔
      1 ≤ index ∧ index ≤ (ts.length : Int) := by
    constructor
    · intro hok
      by_cases hi : index < 1
      · rw [(hb s hi).2] at hok; simp at hok
      · by_cases hg : (ts.length : Int) < index
        · rw [(ho (by omega) hg).2] at hok; simp at hok
        · exact ⟨by omega, by omega⟩
    · rintro ⟨hi, hle⟩
      rw [deleteTask_ok s name ts index h hi hle]
  have hft : (toggleTask s name index).1 ≠ HResult.ok →
      (toggleTask s name index).2 = s := by
    intro hne
    by_cases hi : index < 1
    · rw [(hb s hi).1]
    · by_cases hg : (ts.length : Int) < index
      · rw [(ho (by omega) hg).1]
      · exact absurd (by rw [toggleTask_ok s name ts index h (by omega) (by omega)]) hne
  have hfd : (deleteTask s name index).1 ≠ HResult.ok →
      (deleteTask s name index).2 = s := by
    intro hne
    by_cases hi : index < 1
    · rw [(hb s hi).2]
    · by_cases hg : (ts.length : Int) < index
      · rw [(ho (by omega) hg).2]
      · exact absurd (by rw [deleteTask_ok s name ts index h (by omega) (by omega)]) hne
  exact ⟨hiff1, hiff2, fun hi s' => hb s' hi, ho, hft, hfd⟩

/-- C2 witness: on a one-task list, toggling index 1 succeeds. -/
theorem toggle_delete_index_validation_witness :
    (toggleTask [("w", [⟨"a", false⟩])] "w" 1).1 = HResult.ok :=
  ((toggle_delete_index_validation [("w", [⟨"a", false⟩])] "w"
      [⟨"a", false⟩] 1 (by decide)).1).mpr (by decide)

/-! ### Claim C4 -/

/-- C4: deleting a valid 1-based index `i` from a list of N tasks yields
a list of N-1 tasks keeping every task before position `i` in place and
shifting every task after it left by one (the task previously at `i+1`
is afterwards at `i`). -/
theorem delete_shifts_left (s : Store) (name : String) (ts : List Task)
    (index : Int) (h : lookupList s name = some ts)
    (h1 : 1 ≤ index) (h2 : index ≤ (ts.length : Int)) :
    (deleteTask s name index).1 = HResult.ok ∧
    ∃ ts', lookupList (deleteTask s name index).2 name = some ts' ∧
      ts'.length = ts.length - 1 ∧
      (∀ j : Nat, j + 1 < index.toNat → ts'.get? j = ts.get? j) ∧
      (∀ j : Nat, index.toNat ≤ j + 1 → ts'.get? j = ts.get? (j + 1)) := by
  obtain ⟨k, hk⟩ : ∃ k, index.toNat = k + 1 := ⟨index.toNat - 1, by omega⟩
  have hklen : k < ts.length := by omega
  have hdel := deleteTask_ok s name ts index h h1 h2
  rw [hdel, hk]
  simp only [Nat.add_sub_cancel, take_append_drop_succ]
  refine ⟨trivial, removeAt ts k, lookupList_setList_self s name _,
    removeAt_length ts k hklen, ?_, ?_⟩
  · intro j hj
    exact removeAt_get?_lt ts k j (by omega)
  · intro j hj
    exact removeAt_get?_ge ts k j (by omega)

/-- C4 witness: deleting index 1 of a two-task list succeeds. -/
theorem delete_shifts_left_witness :
    (deleteTask [("d", [⟨"a", false⟩, ⟨"b", true⟩])] "d" 1).1 = HResult.ok :=
  (delete_shifts_left [("d", [⟨"a", false⟩, ⟨"b", true⟩])] "d"
      [⟨"a", false⟩, ⟨"b", true⟩] 1 (by decide) (by decide) (by decide)).1

/-! ### Claim C10 -/

/-- C10: a successful toggle at valid index `i` flips exactly the status
bit of the task at position `i`: that task keeps its description, the
list keeps its length, every other position is untouched, and every
other list in the store is untouched. -/
theorem toggle_frame (s : Store) (name : String) (ts : List Task)
    (index : Int) (h : lookupList s name = some ts)
    (h1 : 1 ≤ index) (h2 : index ≤ (ts.length : Int)) :
    (toggleTask s name index).1 = HResult.ok ∧
    (∃ ts', lookupList (toggleTask s name index).2 name = some ts' ∧
      ts'.length = ts.length ∧
      ts'.get? (index.toNat - 1)
        = (ts.get? (index.toNat - 1)).map
            (fun t => { t with status := !t.status }) ∧
      (∀ j : Nat, j ≠ index.toNat - 1 → ts'.get? j = ts.get? j)) ∧
    (∀ m : String, m ≠ name →
        lookupList (toggleTask s name index).2 m = lookupList s m) := by
  have htog := toggleTask_ok s name ts index h h1 h2
  rw [htog]
  exact ⟨rfl,
    ⟨toggleAt ts (index.toNat - 1), lookupList_setList_self s name _,
      toggleAt_length ts _, toggleAt_get?_eq ts _,
      fun j hj => toggleAt_get?_ne ts _ j hj⟩,
    fun m hm => lookupList_setList_ne s name m _ hm⟩

/-- C10 witness: toggling index 2 of a two-task list succeeds. -/
theorem toggle_frame_witness :
    (toggleTask [("t", [⟨"a", false⟩, ⟨"b", true⟩])] "t" 2).1 = HResult.ok :=
  (toggle_frame [("t", [⟨"a", false⟩, ⟨"b", true⟩])] "t"
      [⟨"a", false⟩, ⟨"b", true⟩] 2 (by decide) (by decide) (by decide)).1

/-! ### Claim C5 -/

/-- C5: toggling the same valid 1-based index twice in succession restores
the task list exactly (in particular the status of the task at that
position returns to its original value): the status flip is an
involution. -/
theorem toggle_twice_restores (s : Store) (name : String) (ts : List Task)
    (index : Int) (h : lookupList s name = some ts)
    (h1 : 1 ≤ index) (h2 : index ≤ (ts.length : Int)) :
    lookupList (toggleTask (toggleTask s name index).2 name index).2 name
      = some ts := by
  have hfst := toggleTask_ok s name ts index h h1 h2
  have hlook : lookupList (toggleTask s name index).2 name
      = some (toggleAt ts (index.toNat - 1)) := by
    rw [hfst]; exact lookupList_setList_self s name _
  have h2' : index ≤ ((toggleAt ts (index.toNat - 1)).length : Int) := by
    rw [toggleAt_length]; exact h2
  have hsnd := toggleTask_ok (toggleTask s name index).2 name
    (toggleAt ts (index.toNat - 1)) index hlook h1 h2'
  rw [hsnd]
  show lookupList (setList (toggleTask s name index).2 name
      (toggleAt (toggleAt ts (index.toNat - 1)) (index.toNat - 1))) name = some ts
  rw [toggleAt_toggleAt]
  exact lookupList_setList_self _ name ts

/-- C5 witness: a one-task list, toggled twice at index 1, is restored. -/
theorem toggle_twice_restores_witness :
    lookupList (toggleTask (toggleTask [("w", [⟨"a", false⟩])] "w" 1).2 "w" 1).2 "w"
      = some [⟨"a", false⟩] :=
  toggle_twice_restores [("w", [⟨"a", false⟩])] "w" [⟨"a", false⟩] 1
    (by decide) (by decide) (by decide)

/-! ### Claim C6 -/

/-- C6: appending a task to an existing list and immediately fetching the
list returns `ok` with the appended task as the last element, identical
to what was appended (same description, same status, being the very same
value). -/
theorem append_then_get_roundtrip (s : Store) (name : String)
    (ts : List Task) (t : Task) (h : lookupList s name = some ts) :
    getTasks (addTask s name t).2 name = (HResult.ok, some (ts ++ [t])) ∧
    (ts ++ [t]).getLast? = some t := by
  constructor
  · have : lookupList (addTask s name t).2 name = some (ts ++ [t]) := by
      have := lookupList_setList_self s name ((lookupList s name).getD [] ++ [t])
      simpa [addTask, h] using this
    simp [getTasks, this]
  · simp

/-- C6 witness at a concrete one-task list. -/
theorem append_then_get_roundtrip_witness :
    getTasks (addTask [("w", [⟨"a", false⟩])] "w" ⟨"b", true⟩).2 "w"
        = (HResult.ok, some [⟨"a", false⟩, ⟨"b", true⟩]) ∧
    ([⟨"a", false⟩, (⟨"b", true⟩ : Task)]).getLast? = some ⟨"b", true⟩ :=
  append_then_get_roundtrip [("w", [⟨"a", false⟩])] "w" [⟨"a", false⟩]
    ⟨"b", true⟩ (by decide)

/-! ### Claim C7 -/

/-- The fields of the JSON request body of POST /lists/{name}/tasks, each
possibly absent from the JSON object. -/
structure TaskPayload where
  description : Option String
  status : Option Bool

/-- Go `json.NewDecoder(r.Body).Decode(&t)` on a well-formed body: a field
absent from the JSON object leaves the Go zero value in the `Task` struct
(`""` for the description string, `false` for the status bool). -/
def decodeTask (p : TaskPayload) : Task :=
  { description := p.description.getD "", status := p.status.getD false }

/-- C7: a well-formed add-task body that omits `status` decodes to a task
with status `false`, and the handler accepts it (answers `ok`) and
appends exactly that task; an empty description is likewise accepted
without error. -/
theorem omitted_status_defaults_false (s : Store) (name : String)
    (d : Option String) :
    (decodeTask ⟨d, none⟩).status = false ∧
    (addTask s name (decodeTask ⟨d, none⟩)).1 = HResult.ok ∧
    lookupList (addTask s name (decodeTask ⟨d, none⟩)).2 name
      = some ((lookupList s name).getD [] ++ [⟨d.getD "", false⟩]) ∧
    (addTask s name (decodeTask ⟨some "", none⟩)).1 = HResult.ok := by
  refine ⟨rfl, rfl, ?_, rfl⟩
  exact lookupList_setList_self s name _

/-! ### Claim C3 -/

/-- A sequence of create-list requests, served one after the other (each
runs under the global lock). -/
def runCreates : Store → List String → Store
  | s, [] => s
  | s, n :: rest => runCreates (createList s n).2 rest

theorem lookupList_createList_preserved (s : Store) (n m : String)
    (ts : List Task) (h : lookupList s m = some ts) :
    lookupList (createList s n).2 m = some ts := by
  by_cases hm : m = n
  · subst hm; simp [createList, h]
  · unfold createList
    cases hcl : lookupList s n with
    | some v => simpa using h
    | none => simpa [lookupList_setList_ne s n m [] hm] using h

theorem lookupList_runCreates_preserved (s : Store) (names : List String)
    (m : String) (ts : List Task) (h : lookupList s m = some ts) :
    lookupList (runCreates s names) m = some ts := by
  induction names generalizing s with
  | nil => simpa [runCreates] using h
  | cons n rest ih =>
      exact ih (createList s n).2 (lookupList_createList_preserved s n m ts h)

/-- C3: a list name is created at most once.  When the name is absent the
create succeeds and installs an empty list; once the name is present,
after any further sequence of create requests it is still present with
its contents untouched, and a create of that name answers AlreadyExists
(HTTP 409) without changing the store. -/
theorem create_at_most_once (s : Store) (name : String) (names : List String) :
    (lookupList s name = none →
        (createList s name).1 = HResult.ok ∧
        lookupList (createList s name).2 name = some []) ∧
    (∀ ts, lookupList s name = some ts →
        lookupList (runCreates s names) name = some ts ∧
        createList (runCreates s names) name
          = (HResult.conflict, runCreates s names) ∧
        statusCode (createList (runCreates s names) name).1 = 409) := by
  constructor
  · intro h
    exact ⟨by simp [createList, h], by simp [createList, h, lookupList_setList_self]⟩
  · intro ts h
    have hpres := lookupList_runCreates_preserved s names name ts h
    exact ⟨hpres, by simp [createList, hpres], by simp [createList, hpres, statusCode]⟩

/-- C3 witness: once `"w"` exists (empty), creating `"w"` again after a
further create sequence conflicts and preserves the contents. -/
theorem create_at_most_once_witness :
    lookupList (runCreates [("w", ([] : List Task))] ["w", "x"]) "w"
      = some [] ∧
    createList (runCreates [("w", ([] : List Task))] ["w", "x"]) "w"
      = (HResult.conflict, runCreates [("w", ([] : List Task))] ["w", "x"]) :=
  let h := (create_at_most_once [("w", [])] "w" ["w", "x"]).2 [] (by decide)
  ⟨h.1, h.2.1⟩

/-! ### Claim C8 -/

/-- A sequence of add-task requests against the same list, served one
after the other: the serialization of N concurrent appends, each of
which is atomic because the handler holds the global mutex for its full
duration. -/
def runAppends : Store → String → List Task → Store
  | s, _, [] => s
  | s, name, t :: rest => runAppends (addTask s name t).2 name rest

theorem lookupList_runAppends (s : Store) (name : String) (ts0 : List Task)
    (order : List Task) (h : lookupList s name = some ts0) :
    lookupList (runAppends s name order) name = some (ts0 ++ order) := by
  induction order generalizing s ts0 with
  | nil => simpa [runAppends] using h
  | cons t rest ih =>
      have hstep : lookupList (addTask s name t).2 name = some (ts0 ++ [t]) := by
        have := lookupList_setList_self s name ((lookupList s name).getD [] ++ [t])
        simpa [addTask, h] using this
      simpa [runAppends, List.append_assoc] using ih (addTask s name t).2 (ts0 ++ [t]) hstep

/-- C8: since every handler runs its whole body under the single global
mutex, a run of N concurrent appends to one list is executed as the N
appends in some serialization order.  For every such order (any
permutation of the N submitted tasks), the list afterwards holds exactly
its old tasks followed by the N submitted ones: length old + N, none
lost, none duplicated. -/
theorem concurrent_appends_exactly_n (s : Store) (name : String)
    (ts0 order tasks : List Task) (h : lookupList s name = some ts0)
    (hperm : order.Perm tasks) :
    ∃ final, lookupList (runAppends s name order) name = some final ∧
      final.length = ts0.length + tasks.length ∧
      final.Perm (ts0 ++ tasks) := by
  refine ⟨ts0 ++ order, lookupList_runAppends s name ts0 order h, ?_, ?_⟩
  · simp [hperm.length_eq]
  · exact hperm.append_left ts0

/-- C8 witness: two appends to `"w"` in the reversed serialization order
still leave exactly the two submitted tasks. -/
theorem concurrent_appends_exactly_n_witness :
    ∃ final,
      lookupList (runAppends [("w", ([] : List Task))] "w"
          [⟨"b", true⟩, ⟨"a", false⟩]) "w" = some final ∧
      final.length = (0 : Nat) + 2 ∧
      final.Perm (([] : List Task) ++ [⟨"a", false⟩, ⟨"b", true⟩]) := by
  have h := concurrent_appends_exactly_n [("w", [])] "w" []
    [⟨"b", true⟩, ⟨"a", false⟩] [⟨"a", false⟩, ⟨"b", true⟩]
    (by decide) (by decide)
  simpa using h

/-! ### Claim C9 -/

/-- One inbound request of the HTTP surface, as dispatched by
`handleLists` / `handleListOperations`. -/
inductive Op where
  | create (name : String)
  | add (name : String) (t : Task)
  | toggle (name : String) (index : Int)
  | delete (name : String) (index : Int)
  /-- GET /lists/{name}/tasks: read-only. -/
  | getList (name : String)
  /-- GET /lists: read-only enumeration of the whole map. -/
  | enumerate

/-- The store after serving one request (the handlers for the two GET
routes only read the map). -/
def applyOp (s : Store) : Op → Store
  | .create n => (createList s n).2
  | .add n t => (addTask s n t).2
  | .toggle n i => (toggleTask s n i).2
  | .delete n i => (deleteTask s n i).2
  | .getList _ => s
  | .enumerate => s

/-- The store after serving a sequence of requests. -/
def runOps : Store → List Op → Store
  | s, [] => s
  | s, op :: rest => runOps (applyOp s op) rest

theorem isSome_applyOp (s : Store) (op : Op) (m : String)
    (h : (lookupList s m).isSome) :
    (lookupList (applyOp s op) m).isSome := by
  cases op with
  | create n =>
      simp only [applyOp, createList]
      split
      · exact h
      · exact isSome_lookupList_setList s n m [] h
  | add n t =>
      exact isSome_lookupList_setList s n m _ h
  | toggle n i =>
      simp only [applyOp, toggleTask]
      split
      · exact h
      · split
        · exact h
        · split
          · exact h
          · exact isSome_lookupList_setList s n m _ h
  | delete n i =>
      simp only [applyOp, deleteTask]
      split
      · exact h
      · split
        · exact h
        · split
          · exact h
          · exact isSome_lookupList_setList s n m _ h
  | getList n => exact h
  | enumerate => exact h

/-- C9: no operation ever removes a list name from the map — delete
removes a task, not a list.  Once a name is present in the store it is
still present after serving any further sequence of requests: the set of
list names grows monotonically over the process lifetime. -/
theorem list_names_monotone (s : Store) (name : String) (ops : List Op)
    (h : (lookupList s name).isSome) :
    (lookupList (runOps s ops) name).isSome := by
  induction ops generalizing s with
  | nil => simpa [runOps] using h
  | cons op rest ih => exact ih (applyOp s op) (isSome_applyOp s op name h)

/-- C9 witness: `"w"` survives a create of another list, an append, a
task deletion that empties it, and a failing toggle. -/
theorem list_names_monotone_witness :
    (lookupList (runOps [("w", [⟨"a", false⟩])]
        [Op.create "x", Op.add "w" ⟨"b", true⟩, Op.delete "w" 1,
         Op.delete "w" 1, Op.toggle "w" 5]) "w").isSome :=
  list_names_monotone [("w", [⟨"a", false⟩])] "w"
    [Op.create "x", Op.add "w" ⟨"b", true⟩, Op.delete "w" 1,
     Op.delete "w" 1, Op.toggle "w" 5] (by decide)

end GoTodo
